import Mathlib

/-!
# Verification of the Crop Recommendation app (`app.py`)

A shallow embedding of the single source file `app.py` (a Streamlit app).
The app reads seven raw text fields, converts them with
`float(x) if x else None`, validates presence (`validate_inputs`) and
numeric ranges, and finally calls `predict_crop` on the loaded model.

Modelling choices:
* A raw text field is `RawInput`: the empty string (falsy in Python, so it
  is converted to `None`), non-empty text that does not parse as a float
  (so `float` raises `ValueError`), or non-empty text parsing to a number.
  Numbers are modelled as rationals `ℚ`; the special float literals
  (`nan`/`inf`) are outside the model.
* The model artifact is a black box: `Model` is a function from the feature
  list to `Except String String` — `.error e` models `model.predict`
  (or the subsequent `.item()`) raising with message `e`, `.ok l` models a
  successful prediction of label `l`.
* Every user-visible display call relevant to the claims is recorded as an
  `Event` in a trace: `st.error` becomes `Event.errorMsg`, the per-field
  warning bullets (`st.markdown` with class `warning`) become
  `Event.warningMsg`, the call `model.predict([features])` becomes
  `Event.predictCall`, the success banner becomes `Event.successMsg`, and
  the echo of the seven raw inputs becomes `Event.inputEcho`.  Pure
  cosmetics (CSS, headers, the About column) are not evented.
* One run of the script (`main()` at line 207) is modelled by `main`;
  its arguments are the outcome of reading the pickle file, whether the
  predict button was pressed, and the seven field contents.
-/

namespace CropApp

/-- One raw text field as submitted by the user.
`empty` is the empty string (falsy, so `float(x) if x else None` yields
`None`); `junk` is non-empty text on which `float` raises `ValueError`;
`num q` is non-empty text parsing to the number `q`. -/
inductive RawInput where
  | empty : RawInput
  | junk : RawInput
  | num : ℚ → RawInput
deriving DecidableEq

/-- The seven raw text fields of the form, in the order used on line 160
of `app.py`. -/
structure Submission where
  n : RawInput
  p : RawInput
  k : RawInput
  temperature : RawInput
  humidity : RawInput
  ph : RawInput
  rainfall : RawInput
deriving DecidableEq

/-- The list `[n, p, k, temperature, humidity, ph, rainfall]` of line 160. -/
def Submission.rawList (s : Submission) : List RawInput :=
  [s.n, s.p, s.k, s.temperature, s.humidity, s.ph, s.rainfall]

/-- The black-box model: maps the feature list to a label, or raises. -/
def Model : Type := List ℚ → Except String String

/-- Display/trace events of one script run. -/
inductive Event where
  | loadCall : Event
  | errorMsg : String → Event
  | warningMsg : String → Event
  | predictCall : List ℚ → Event
  | successMsg : String → Event
  | inputEcho : Submission → Event
deriving DecidableEq

/-- `float(x) if x else None` for one field: the empty string is falsy and
becomes `none`; `float` on non-numeric text raises `ValueError` (modelled
as `Except.error ()`); numeric text yields its value. -/
def toFloatOpt : RawInput → Except Unit (Option ℚ)
  | .empty => .ok none
  | .junk => .error ()
  | .num q => .ok (some q)

/-- The list comprehension
`[float(x) if x else None for x in [n, p, k, temperature, humidity, ph, rainfall]]`
(line 160): the first non-numeric field raises `ValueError`. -/
def convert : List RawInput → Except Unit (List (Option ℚ))
  | [] => .ok []
  | x :: xs =>
    match toFloatOpt x with
    | .error e => .error e
    | .ok v =>
      match convert xs with
      | .error e => .error e
      | .ok vs => .ok (v :: vs)

/-- The `input_names` list of `validate_inputs` (lines 84-85). -/
def input_names : List String :=
  ["Nitrogen", "Phosphorus", "Potassium", "Temperature",
   "Humidity", "pH Level", "Rainfall"]

/-- The f-string `f"{name} is required"` of line 89. -/
def requiredMsg (name : String) : String := name ++ " is required"

/-- The `for value, name in zip(inputs, input_names)` loop of
`validate_inputs` (lines 87-89).  The source condition is
`value is None or value == ""`; the inputs are floats-or-`None` here
(built on line 160), for which `value == ""` is always false, so only the
`None` test remains. -/
def validateWith : List (Option ℚ) → List String → List String
  | v :: vs, name :: names =>
    (if v = none then [requiredMsg name] else []) ++ validateWith vs names
  | _, _ => []

/-- `validate_inputs` (lines 81-91). -/
def validate_inputs (inputs : List (Option ℚ)) : List String :=
  validateWith inputs input_names

/-- The `ranges` list of lines 169-174: `(min_val, max_val, name)`. -/
def ranges : List (ℕ × ℕ × String) :=
  [(0, 140, "Nitrogen"), (0, 140, "Phosphorus"),
   (0, 200, "Potassium"), (0, 50, "Temperature"),
   (0, 100, "Humidity"), (0, 14, "pH"),
   (0, 300, "Rainfall")]

/-- The f-string `f"{name} must be between {min_val} and {max_val}"`
of line 179. -/
def rangeMsg : ℕ × ℕ × String → String
  | (lo, hi, name) =>
    name ++ " must be between " ++ toString lo ++ " and " ++ toString hi

/-- The `for value, (min_val, max_val, name) in zip(features, ranges)` loop
of lines 177-179: `if value < min_val or value > max_val`. -/
def rangeErrorsWith : List ℚ → List (ℕ × ℕ × String) → List String
  | v :: vs, r :: rs =>
    (if v < (r.1 : ℚ) ∨ (r.2.1 : ℚ) < v then [rangeMsg r] else []) ++
      rangeErrorsWith vs rs
  | _, _ => []

/-- The `range_errors` list accumulated on lines 176-179. -/
def range_errors (features : List ℚ) : List String :=
  rangeErrorsWith features ranges

/-- `predict_crop` (lines 72-79): calls `model.predict([features])`
(recorded as a `predictCall` event); if the underlying call raises it
displays `Error making prediction: …` and returns `None`, otherwise it
returns the label. -/
def predict_crop (model : Model) (features : List ℚ) :
    List Event × Option String :=
  match model features with
  | .ok l => ([Event.predictCall features], some l)
  | .error e =>
    ([Event.predictCall features,
      Event.errorMsg ("Error making prediction: " ++ e)], none)

/-- `st.error("Please fix the following issues:")` text (lines 164, 182). -/
def fixMsg : String := "Please fix the following issues:"

/-- The generic `ValueError` handler text (line 204). -/
def validNumbersMsg : String := "Please ensure all inputs are valid numbers"

/-- Lines 161-201: the part of the `try` body after the conversion of
line 160 succeeded, producing `features`.  Presence check first; if it
passes, the range check; if that passes, the prediction; a truthy
(non-empty) prediction is rendered with an echo of the raw inputs
(lines 190-201). -/
def afterParse (model : Model) (sub : Submission)
    (features : List (Option ℚ)) : List Event :=
  let vmsgs := validate_inputs features
  if vmsgs = [] then
    let fs := features.reduceOption
    let rerrs := range_errors fs
    if rerrs = [] then
      match predict_crop model fs with
      | (ev, some l) =>
        ev ++ (if l = "" then []
               else [Event.successMsg l, Event.inputEcho sub])
      | (ev, none) => ev
    else Event.errorMsg fixMsg :: rerrs.map Event.warningMsg
  else Event.errorMsg fixMsg :: vmsgs.map Event.warningMsg

/-- The body of `if st.button("Predict Recommended Crop")`
(lines 157-204): a `ValueError` raised by the conversion of line 160 jumps
to the generic handler of lines 203-204, otherwise the `try` body
continues with the converted features. -/
def handle (model : Model) (sub : Submission) : List Event :=
  match convert sub.rawList with
  | .error _ => [Event.errorMsg validNumbersMsg]
  | .ok features => afterParse model sub features

/-- `load_model` (lines 62-70).  The parameter `r` is the outcome of
`pickle.load(open('lgb_model.pickle','rb'))`: `.error e` models the file
being missing/corrupt (exception message `e`), `.ok m` a loaded model.
On failure it displays `Error loading model: …` and returns `None`. -/
def load_model (r : Except String Model) : List Event × Option Model :=
  match r with
  | .ok m => ([Event.loadCall], some m)
  | .error e =>
    ([Event.loadCall, Event.errorMsg ("Error loading model: " ++ e)], none)

/-- The `st.error` text of line 102. -/
def failedLoadMsg : String :=
  "Failed to load the model. Please check if 'model.pickle' exists."

/-- `main` (lines 93-204) for one script run: load the model once; on
failure display the fatal error and return (line 103) — the form's predict
path is never reached; otherwise run `handle` if the predict button was
pressed. -/
def main (r : Except String Model) (pressed : Bool) (sub : Submission) :
    List Event :=
  match load_model r with
  | (ev, none) => ev ++ [Event.errorMsg failedLoadMsg]
  | (ev, some m) => ev ++ (if pressed then handle m sub else [])

/-! ## Specification-side vocabulary -/

/-- The numeric value of a field after `float(x) if x else None`:
`none` for the empty string and for non-numeric text. -/
def rawToOpt : RawInput → Option ℚ
  | .empty => none
  | .junk => none
  | .num q => some q

/-- `numsOf xs = some qs` iff every field of `xs` is present and numeric,
with values `qs`. -/
def numsOf : List RawInput → Option (List ℚ)
  | [] => some []
  | x :: xs =>
    match x with
    | .num q => (numsOf xs).map (q :: ·)
    | _ => none

/-- All seven fields of a submission are present and numeric, with the
listed values. -/
def parsedNums (sub : Submission) : Option (List ℚ) :=
  numsOf sub.rawList

/-- Projection selecting the per-field warning bullets of a trace. -/
def warningOf : Event → Option String
  | .warningMsg s => some s
  | _ => none

/-- The per-field warning bullets displayed by one button press (the
strings rendered with class `warning` on lines 166 and 184). -/
def displayedWarnings (model : Model) (sub : Submission) : List String :=
  (handle model sub).filterMap warningOf

/-- The trace of a run whose model load failed with message `e`
(lines 68-70 and 101-103). -/
def loadFailTrace (e : String) : List Event :=
  [Event.loadCall, Event.errorMsg ("Error loading model: " ++ e),
   Event.errorMsg failedLoadMsg]

/-- Generic form of the two validation loops: walk two lists in step and
emit `m c` whenever `p b c` holds. -/
def pick {β γ α : Type} (p : β → γ → Prop) [∀ b c, Decidable (p b c)]
    (m : γ → α) : List β → List γ → List α
  | b :: bs, c :: cs => (if p b c then [m c] else []) ++ pick p m bs cs
  | _, _ => []

/-! ## Concrete fixtures used by witnesses and counterexamples -/

/-- A model that always predicts the label `rice`. -/
def okModel : Model := fun _ => .ok "rice"

/-- A model whose prediction call always raises. -/
def errModel : Model := fun _ => .error "boom"

/-- A model whose prediction call succeeds with the empty-string label
(falsy in Python). -/
def emptyLabelModel : Model := fun _ => .ok ""

/-- The fully valid example submission of the spec:
N=90, P=42, K=43, temperature=20.8, humidity=82, pH=6.5, rainfall=202.9. -/
def subValid : Submission :=
  ⟨.num 90, .num 42, .num 43, .num 20.8, .num 82, .num 6.5, .num 202.9⟩

/-- The feature values of `subValid`. -/
def fsValid : List ℚ := [90, 42, 43, 20.8, 82, 6.5, 202.9]

/-- Nitrogen missing and phosphorus out of range (999 > 140). -/
def subMissingAndRange : Submission :=
  ⟨.empty, .num 999, .num 1, .num 1, .num 1, .num 7, .num 1⟩

/-- Nitrogen non-numeric and phosphorus empty. -/
def subJunkAndEmpty : Submission :=
  ⟨.junk, .empty, .num 1, .num 1, .num 1, .num 7, .num 1⟩

/-- Phosphorus empty, everything else numeric. -/
def subMissing : Submission :=
  ⟨.num 5, .empty, .num 1, .num 1, .num 1, .num 7, .num 1⟩

/-- All numeric, phosphorus out of range (999 > 140). -/
def subRange : Submission :=
  ⟨.num 1, .num 999, .num 1, .num 1, .num 1, .num 7, .num 1⟩

/-- The feature values of `subRange`. -/
def fsRange : List ℚ := [1, 999, 1, 1, 1, 7, 1]

/-! ## Generic lemmas about the validation loops -/

lemma pick_nil_left {β γ α : Type} (p : β → γ → Prop) [∀ b c, Decidable (p b c)]
    (m : γ → α) (cs : List γ) : pick p m [] cs = [] := by
  cases cs <;> rfl

lemma pick_sublist {β γ α : Type} (p : β → γ → Prop) [∀ b c, Decidable (p b c)]
    (m : γ → α) : ∀ (bs : List β) (cs : List γ),
    (pick p m bs cs).Sublist (cs.map m)
  | [], cs => by rw [pick_nil_left]; exact List.nil_sublist _
  | _ :: _, [] => List.nil_sublist _
  | b :: bs, c :: cs => by
    by_cases h : p b c
    · simpa [pick, h] using (pick_sublist p m bs cs).cons₂ (m c)
    · simpa [pick, h] using (pick_sublist p m bs cs).cons (m c)

lemma mem_pick {β γ α : Type} {p : β → γ → Prop} [∀ b c, Decidable (p b c)]
    {m : γ → α} {bs : List β} {cs : List γ} {a : α}
    (h : a ∈ pick p m bs cs) : a ∈ cs.map m :=
  (pick_sublist p m bs cs).subset h

lemma count_singleton_ne {α : Type} [DecidableEq α] {a b : α} (h : a ≠ b) :
    [a].count b = 0 :=
  List.count_eq_zero.mpr (by simp [Ne.symm h])

/-- Each position of the walked list contributes its message exactly when
its condition holds, and (as long as the messages are pairwise distinct)
no other position contributes that same message. -/
lemma count_pick {β γ α : Type} [DecidableEq α] (p : β → γ → Prop)
    [∀ b c, Decidable (p b c)] (m : γ → α) (b₀ : β) (c₀ : γ) :
    ∀ (bs : List β) (cs : List γ) (i : ℕ), i < bs.length →
      bs.length ≤ cs.length → (cs.map m).Nodup →
      (pick p m bs cs).count (m (cs.getD i c₀)) =
        if p (bs.getD i b₀) (cs.getD i c₀) then 1 else 0
  | [], _, i, hi, _, _ => absurd hi (by simp)
  | _ :: _, [], _, _, hle, _ => absurd hle (by simp)
  | b :: bs, c :: cs, 0, _, _, hn => by
    rw [List.map_cons] at hn
    obtain ⟨hn1, _⟩ := List.nodup_cons.mp hn
    have h0 : (pick p m bs cs).count (m c) = 0 :=
      List.count_eq_zero.mpr fun hmem => hn1 (mem_pick hmem)
    by_cases h : p b c
    · simp [pick, h, List.count_append, h0]
    · simp [pick, h, h0]
  | b :: bs, c :: cs, i + 1, hi, hle, hn => by
    rw [List.map_cons] at hn
    obtain ⟨hn1, hn2⟩ := List.nodup_cons.mp hn
    have hi' : i < bs.length := Nat.lt_of_succ_lt_succ hi
    have hle' : bs.length ≤ cs.length := Nat.le_of_succ_le_succ hle
    have hics : i < cs.length := lt_of_lt_of_le hi' hle'
    have hmem : cs.getD i c₀ ∈ cs := by
      rw [List.getD_eq_getElem cs c₀ hics]; exact List.getElem_mem hics
    have hne : m c ≠ m (cs.getD i c₀) :=
      fun he => hn1 (he ▸ List.mem_map_of_mem m hmem)
    have ihc := count_pick p m b₀ c₀ bs cs i hi' hle' hn2
    by_cases h : p b c
    · simp only [pick, if_pos h, List.singleton_append, List.getD_cons_succ]
      rw [show (m c :: pick p m bs cs : List α) = [m c] ++ pick p m bs cs from rfl,
        List.count_append, count_singleton_ne hne, ihc]
      omega
    · simp only [pick, if_neg h, List.nil_append, List.getD_cons_succ]
      rw [ihc]

lemma pick_eq_nil_forall {β γ α : Type} (p : β → γ → Prop)
    [∀ b c, Decidable (p b c)] (m : γ → α) (b₀ : β) (c₀ : γ) :
    ∀ (bs : List β) (cs : List γ), bs.length ≤ cs.length →
      pick p m bs cs = [] → ∀ i, i < bs.length →
      ¬ p (bs.getD i b₀) (cs.getD i c₀)
  | [], _, _, _, i, hi => absurd hi (by simp)
  | _ :: _, [], hle, _, _, _ => absurd hle (by simp)
  | b :: bs, c :: cs, hle, h, i, hi => by
    simp only [pick] at h
    obtain ⟨h1, h2⟩ := List.append_eq_nil.mp h
    cases i with
    | zero =>
      intro hc
      rw [List.getD_cons_zero, List.getD_cons_zero] at hc
      rw [if_pos hc] at h1
      cases h1
    | succ i =>
      rw [List.getD_cons_succ, List.getD_cons_succ]
      exact pick_eq_nil_forall p m b₀ c₀ bs cs (Nat.le_of_succ_le_succ hle)
        h2 i (Nat.lt_of_succ_lt_succ hi)

/-! ## The two loops as instances of `pick` -/

lemma validateWith_eq_pick : ∀ (os : List (Option ℚ)) (names : List String),
    validateWith os names = pick (fun v _ => v = none) requiredMsg os names
  | [], names => by cases names <;> rfl
  | _ :: _, [] => rfl
  | v :: vs, n :: ns => by
    simp [validateWith, pick, validateWith_eq_pick vs ns]

lemma rangeErrorsWith_eq_pick : ∀ (fs : List ℚ) (rs : List (ℕ × ℕ × String)),
    rangeErrorsWith fs rs =
      pick (fun (v : ℚ) (r : ℕ × ℕ × String) => v < (r.1 : ℚ) ∨ (r.2.1 : ℚ) < v)
        rangeMsg fs rs
  | [], rs => by cases rs <;> rfl
  | _ :: _, [] => rfl
  | v :: vs, r :: rs => by
    simp [rangeErrorsWith, pick, rangeErrorsWith_eq_pick vs rs]

/-! ## Conversion lemmas (line 160) -/

lemma convert_of_junk : ∀ xs : List RawInput, RawInput.junk ∈ xs →
    convert xs = .error ()
  | x :: xs, h => by
    cases x with
    | junk => rfl
    | empty =>
      have h' : RawInput.junk ∈ xs := by
        rcases List.mem_cons.mp h with h0 | h0
        · exact absurd h0 (by simp)
        · exact h0
      simp [convert, toFloatOpt, convert_of_junk xs h']
    | num q =>
      have h' : RawInput.junk ∈ xs := by
        rcases List.mem_cons.mp h with h0 | h0
        · exact absurd h0 (by simp)
        · exact h0
      simp [convert, toFloatOpt, convert_of_junk xs h']

lemma convert_of_no_junk : ∀ xs : List RawInput, RawInput.junk ∉ xs →
    convert xs = .ok (xs.map rawToOpt)
  | [], _ => rfl
  | x :: xs, h => by
    have h' : RawInput.junk ∉ xs := fun hm => h (List.mem_cons_of_mem x hm)
    cases x with
    | junk => exact absurd (List.mem_cons_self _ _) h
    | empty => simp [convert, toFloatOpt, convert_of_no_junk xs h', rawToOpt]
    | num q => simp [convert, toFloatOpt, convert_of_no_junk xs h', rawToOpt]

lemma convert_ok_inv {xs : List RawInput} {os : List (Option ℚ)}
    (h : convert xs = .ok os) : RawInput.junk ∉ xs ∧ os = xs.map rawToOpt := by
  by_cases hj : RawInput.junk ∈ xs
  · rw [convert_of_junk xs hj] at h; cases h
  · rw [convert_of_no_junk xs hj] at h
    exact ⟨hj, (Except.ok.inj h).symm⟩

/-! ## `numsOf` lemmas -/

lemma numsOf_map_num : ∀ qs : List ℚ, numsOf (qs.map RawInput.num) = some qs
  | [] => rfl
  | q :: qs => by simp [numsOf, numsOf_map_num qs]

lemma numsOf_eq_some : ∀ (xs : List RawInput) (qs : List ℚ),
    numsOf xs = some qs → xs = qs.map RawInput.num
  | [], qs, h => by
    simp only [numsOf, Option.some.injEq] at h
    rw [← h]; rfl
  | x :: xs, qs, h => by
    cases x with
    | empty => simp [numsOf] at h
    | junk => simp [numsOf] at h
    | num q =>
      simp only [numsOf, Option.map_eq_some'] at h
      obtain ⟨qs', h1, h2⟩ := h
      rw [← h2, List.map_cons]
      exact congrArg (RawInput.num q :: ·) (numsOf_eq_some xs qs' h1)

lemma parsedNums_some_iff (sub : Submission) (fs : List ℚ) :
    parsedNums sub = some fs ↔ sub.rawList = fs.map RawInput.num := by
  constructor
  · exact numsOf_eq_some _ _
  · intro h; rw [parsedNums, h, numsOf_map_num]

lemma rawList_length (sub : Submission) : sub.rawList.length = 7 := rfl

/-! ## Presence-check lemmas -/

lemma validateWith_map_some : ∀ (qs : List ℚ) (names : List String),
    validateWith (qs.map some) names = []
  | [], names => by cases names <;> rfl
  | _ :: _, [] => rfl
  | q :: qs, n :: ns => by
    simp [validateWith, validateWith_map_some qs ns]

lemma validateWith_nil_no_none :
    ∀ (os : List (Option ℚ)) (names : List String), os.length ≤ names.length →
      validateWith os names = [] → ∀ o ∈ os, o ≠ none
  | [], _, _, _ => by simp
  | _ :: _, [], hlen, _ => by simp at hlen
  | v :: vs, n :: ns, hlen, h => by
    simp only [validateWith] at h
    obtain ⟨h1, h2⟩ := List.append_eq_nil.mp h
    have hv : v ≠ none := by
      intro hv; rw [if_pos hv] at h1; cases h1
    intro o ho
    rcases List.mem_cons.mp ho with rfl | ho'
    · exact hv
    · exact validateWith_nil_no_none vs ns (Nat.le_of_succ_le_succ hlen) h2 o ho'

lemma junk_not_mem_map_num (qs : List ℚ) :
    RawInput.junk ∉ qs.map RawInput.num := by
  simp

lemma map_rawToOpt_map_num (qs : List ℚ) :
    (qs.map RawInput.num).map rawToOpt = qs.map some := by
  induction qs with
  | nil => rfl
  | cons q qs ih => simp [rawToOpt, ih]

lemma reduceOption_map_some (qs : List ℚ) : (qs.map some).reduceOption = qs := by
  induction qs with
  | nil => rfl
  | cons q qs ih => simp [List.reduceOption_cons_of_some, ih]

lemma eq_map_num_of : ∀ xs : List RawInput, RawInput.junk ∉ xs →
    (∀ o ∈ xs.map rawToOpt, o ≠ none) →
    xs = ((xs.map rawToOpt).reduceOption).map RawInput.num
  | [], _, _ => rfl
  | x :: xs, hj, hn => by
    have hj' : RawInput.junk ∉ xs := fun hm => hj (List.mem_cons_of_mem x hm)
    have hn' : ∀ o ∈ xs.map rawToOpt, o ≠ none :=
      fun o ho => hn o (List.mem_cons_of_mem _ ho)
    cases x with
    | junk => exact absurd (List.mem_cons_self _ _) hj
    | empty =>
      exact absurd rfl (hn none (by simp [rawToOpt]))
    | num q =>
      simp only [List.map_cons, rawToOpt, List.reduceOption_cons_of_some]
      exact congrArg (RawInput.num q :: ·) (eq_map_num_of xs hj' hn')

/-- A submission that converts cleanly and passes the presence check is
all-numeric, with values `features.reduceOption`. -/
lemma parsedNums_of_valid {sub : Submission} {features : List (Option ℚ)}
    (hc : convert sub.rawList = Except.ok features)
    (hv : validate_inputs features = []) :
    parsedNums sub = some features.reduceOption ∧
      sub.rawList = (features.reduceOption).map RawInput.num := by
  obtain ⟨hj, hf⟩ := convert_ok_inv hc
  have hlen : features.length ≤ input_names.length := by
    rw [hf, List.length_map, rawList_length]
    exact Nat.le_refl 7
  have hnn := validateWith_nil_no_none features input_names hlen hv
  have hmap := eq_map_num_of sub.rawList hj (by rw [← hf]; exact hnn)
  rw [← hf] at hmap
  exact ⟨(parsedNums_some_iff sub _).mpr hmap, hmap⟩

/-! ## Branch lemmas for `handle` and `afterParse` -/

lemma handle_of_junk (m : Model) (sub : Submission)
    (h : RawInput.junk ∈ sub.rawList) :
    handle m sub = [Event.errorMsg validNumbersMsg] := by
  unfold handle; rw [convert_of_junk _ h]

lemma handle_of_no_junk (m : Model) (sub : Submission)
    (h : RawInput.junk ∉ sub.rawList) :
    handle m sub = afterParse m sub (sub.rawList.map rawToOpt) := by
  unfold handle; rw [convert_of_no_junk _ h]

lemma afterParse_of_missing (m : Model) (sub : Submission)
    (features : List (Option ℚ)) (h : validate_inputs features ≠ []) :
    afterParse m sub features =
      Event.errorMsg fixMsg :: (validate_inputs features).map Event.warningMsg := by
  simp only [afterParse]
  rw [if_neg h]

lemma afterParse_of_range (m : Model) (sub : Submission)
    (features : List (Option ℚ)) (h1 : validate_inputs features = [])
    (h2 : range_errors features.reduceOption ≠ []) :
    afterParse m sub features =
      Event.errorMsg fixMsg ::
        (range_errors features.reduceOption).map Event.warningMsg := by
  simp only [afterParse]
  rw [if_pos h1, if_neg h2]

lemma afterParse_predict_ok (m : Model) (sub : Submission)
    (features : List (Option ℚ)) (l : String)
    (h1 : validate_inputs features = [])
    (h2 : range_errors features.reduceOption = [])
    (h3 : m features.reduceOption = Except.ok l) (h4 : l ≠ "") :
    afterParse m sub features =
      [Event.predictCall features.reduceOption, Event.successMsg l,
       Event.inputEcho sub] := by
  simp only [afterParse]
  rw [if_pos h1, if_pos h2]
  simp [predict_crop, h3, h4]

lemma afterParse_predict_falsy (m : Model) (sub : Submission)
    (features : List (Option ℚ)) (h1 : validate_inputs features = [])
    (h2 : range_errors features.reduceOption = [])
    (h3 : m features.reduceOption = Except.ok "") :
    afterParse m sub features = [Event.predictCall features.reduceOption] := by
  simp only [afterParse]
  rw [if_pos h1, if_pos h2]
  simp [predict_crop, h3]

lemma afterParse_predict_err (m : Model) (sub : Submission)
    (features : List (Option ℚ)) (e : String)
    (h1 : validate_inputs features = [])
    (h2 : range_errors features.reduceOption = [])
    (h3 : m features.reduceOption = Except.error e) :
    afterParse m sub features =
      [Event.predictCall features.reduceOption,
       Event.errorMsg ("Error making prediction: " ++ e)] := by
  simp only [afterParse]
  rw [if_pos h1, if_pos h2]
  simp [predict_crop, h3]

/-- An all-numeric submission passes conversion and the presence check. -/
lemma handle_of_nums (m : Model) {sub : Submission} {fs : List ℚ}
    (h : parsedNums sub = some fs) :
    handle m sub = afterParse m sub (fs.map some) ∧
      validate_inputs (fs.map some) = [] ∧
      (fs.map some).reduceOption = fs ∧ fs.length = 7 := by
  have hraw : sub.rawList = fs.map RawInput.num :=
    (parsedNums_some_iff sub fs).mp h
  have hj : RawInput.junk ∉ sub.rawList := by
    rw [hraw]; exact junk_not_mem_map_num fs
  have hlen : fs.length = 7 := by
    have := rawList_length sub
    rw [hraw, List.length_map] at this
    exact this
  refine ⟨?_, validateWith_map_some fs input_names, reduceOption_map_some fs, hlen⟩
  rw [handle_of_no_junk m sub hj, hraw, map_rawToOpt_map_num]

/-- The four possible outcomes once conversion succeeded. -/
lemma afterParse_shapes (m : Model) (sub : Submission)
    (features : List (Option ℚ)) :
    (∃ msgs : List String, msgs ≠ [] ∧
      afterParse m sub features =
        Event.errorMsg fixMsg :: msgs.map Event.warningMsg) ∨
    (∃ fs l, afterParse m sub features =
      [Event.predictCall fs, Event.successMsg l, Event.inputEcho sub]) ∨
    (∃ fs, afterParse m sub features = [Event.predictCall fs]) ∨
    (∃ fs e, afterParse m sub features =
      [Event.predictCall fs, Event.errorMsg ("Error making prediction: " ++ e)]) := by
  by_cases hv : validate_inputs features = []
  · by_cases hr : range_errors features.reduceOption = []
    · cases hml : m features.reduceOption with
      | error e =>
        exact Or.inr (Or.inr (Or.inr
          ⟨_, e, afterParse_predict_err m sub features e hv hr hml⟩))
      | ok l =>
        by_cases hl : l = ""
        · subst hl
          exact Or.inr (Or.inr (Or.inl
            ⟨_, afterParse_predict_falsy m sub features hv hr hml⟩))
        · exact Or.inr (Or.inl
            ⟨_, l, afterParse_predict_ok m sub features l hv hr hml hl⟩)
    · exact Or.inl ⟨range_errors features.reduceOption, hr,
        afterParse_of_range m sub features hv hr⟩
  · exact Or.inl ⟨validate_inputs features, hv,
      afterParse_of_missing m sub features hv⟩

/-- The five possible outcomes of one button press. -/
lemma handle_cases (m : Model) (sub : Submission) :
    handle m sub = [Event.errorMsg validNumbersMsg] ∨
    (∃ msgs : List String, msgs ≠ [] ∧
      handle m sub = Event.errorMsg fixMsg :: msgs.map Event.warningMsg) ∨
    (∃ fs l, handle m sub =
      [Event.predictCall fs, Event.successMsg l, Event.inputEcho sub]) ∨
    (∃ fs, handle m sub = [Event.predictCall fs]) ∨
    (∃ fs e, handle m sub =
      [Event.predictCall fs, Event.errorMsg ("Error making prediction: " ++ e)]) := by
  by_cases hj : RawInput.junk ∈ sub.rawList
  · exact Or.inl (handle_of_junk m sub hj)
  · rw [handle_of_no_junk m sub hj]
    exact Or.inr (afterParse_shapes m sub _)

lemma afterParse_ne_generic (m : Model) (sub : Submission)
    (features : List (Option ℚ)) :
    afterParse m sub features ≠ [Event.errorMsg validNumbersMsg] := by
  rcases afterParse_shapes m sub features with
    ⟨msgs, hne, h⟩ | ⟨fs, l, h⟩ | ⟨fs, h⟩ | ⟨fs, e, h⟩ <;>
    rw [h] <;> simp [fixMsg, validNumbersMsg]

/-- The generic `valid numbers` error is the whole display exactly when
some field holds non-numeric text. -/
lemma handle_eq_generic_iff (m : Model) (sub : Submission) :
    handle m sub = [Event.errorMsg validNumbersMsg] ↔
      RawInput.junk ∈ sub.rawList := by
  constructor
  · intro h
    by_contra hj
    rw [handle_of_no_junk m sub hj] at h
    exact afterParse_ne_generic m sub _ h
  · exact handle_of_junk m sub

lemma loadCall_not_mem_handle (m : Model) (sub : Submission) :
    Event.loadCall ∉ handle m sub := by
  rcases handle_cases m sub with
    h | ⟨msgs, hne, h⟩ | ⟨fs, l, h⟩ | ⟨fs, h⟩ | ⟨fs, e, h⟩ <;>
    rw [h] <;> simp

lemma count_predictCall_handle (m : Model) (sub : Submission) (gs : List ℚ) :
    (handle m sub).count (Event.predictCall gs) ≤ 1 := by
  rcases handle_cases m sub with
    h | ⟨msgs, hne, h⟩ | ⟨fs, l, h⟩ | ⟨fs, h⟩ | ⟨fs, e, h⟩ <;> rw [h]
  · rw [List.count_eq_zero.mpr
      (show Event.predictCall gs ∉ [Event.errorMsg validNumbersMsg] by simp)]
    omega
  · rw [List.count_eq_zero.mpr (show Event.predictCall gs ∉
      Event.errorMsg fixMsg :: msgs.map Event.warningMsg by simp)]
    omega
  · have h2 : List.count (Event.predictCall gs)
        [Event.successMsg l, Event.inputEcho sub] = 0 :=
      List.count_eq_zero.mpr (by simp)
    have h3 : List.count (Event.predictCall gs) [Event.predictCall fs] ≤ 1 :=
      le_trans (List.count_le_length _ _) (by simp)
    rw [show [Event.predictCall fs, Event.successMsg l, Event.inputEcho sub] =
      [Event.predictCall fs] ++ [Event.successMsg l, Event.inputEcho sub] from rfl,
      List.count_append, h2]
    omega
  · exact le_trans (List.count_le_length _ _) (by simp)
  · have h2 : List.count (Event.predictCall gs)
        [Event.errorMsg ("Error making prediction: " ++ e)] = 0 :=
      List.count_eq_zero.mpr (by simp)
    have h3 : List.count (Event.predictCall gs) [Event.predictCall fs] ≤ 1 :=
      le_trans (List.count_le_length _ _) (by simp)
    rw [show [Event.predictCall fs,
        Event.errorMsg ("Error making prediction: " ++ e)] =
      [Event.predictCall fs] ++
        [Event.errorMsg ("Error making prediction: " ++ e)] from rfl,
      List.count_append, h2]
    omega

/-! ## Extracting the displayed warning bullets -/

lemma filterMap_warning (msgs : List String) :
    (msgs.map Event.warningMsg).filterMap warningOf = msgs := by
  induction msgs with
  | nil => rfl
  | cons s ss ih => simp [warningOf, ih]

lemma displayedWarnings_of_msgs (m : Model) (sub : Submission)
    {msgs : List String}
    (h : handle m sub = Event.errorMsg fixMsg :: msgs.map Event.warningMsg) :
    displayedWarnings m sub = msgs := by
  rw [displayedWarnings, h, List.filterMap_cons,
    show warningOf (Event.errorMsg fixMsg) = none from rfl]
  exact filterMap_warning msgs

lemma displayedWarnings_of_no_warning (m : Model) (sub : Submission)
    (h : ∀ s, Event.warningMsg s ∉ handle m sub) :
    displayedWarnings m sub = [] := by
  rw [displayedWarnings, List.filterMap_eq_nil_iff]
  intro e he
  cases e with
  | warningMsg s => exact absurd he (h s)
  | loadCall => rfl
  | errorMsg s => rfl
  | predictCall fs => rfl
  | successMsg s => rfl
  | inputEcho s => rfl

/-! ## Count lemmas for the concrete field tables -/

lemma input_names_length : input_names.length = 7 := rfl

lemma ranges_length : ranges.length = 7 := rfl

lemma required_nodup : (input_names.map requiredMsg).Nodup := by decide

lemma rangeMsgs_nodup : (ranges.map rangeMsg).Nodup := by decide

lemma count_validate_inputs (os : List (Option ℚ)) (i : ℕ)
    (hi : i < os.length) (hlen : os.length ≤ 7) :
    (validate_inputs os).count (requiredMsg (input_names.getD i "")) =
      if os.getD i (some 0) = none then 1 else 0 := by
  rw [validate_inputs, validateWith_eq_pick]
  exact count_pick _ requiredMsg (some 0) "" os input_names i hi
    (by rw [input_names_length]; exact hlen) required_nodup

lemma count_range_errors (fs : List ℚ) (i : ℕ)
    (hi : i < fs.length) (hlen : fs.length ≤ 7) :
    (range_errors fs).count (rangeMsg (ranges.getD i (0, 0, ""))) =
      if fs.getD i 0 < ((ranges.getD i (0, 0, "")).1 : ℚ) ∨
          ((ranges.getD i (0, 0, "")).2.1 : ℚ) < fs.getD i 0
        then 1 else 0 := by
  rw [range_errors, rangeErrorsWith_eq_pick]
  exact count_pick _ rangeMsg 0 (0, 0, "") fs ranges i hi
    (by rw [ranges_length]; exact hlen) rangeMsgs_nodup

lemma range_errors_nil_bounds {fs : List ℚ} (h7 : fs.length = 7)
    (h : range_errors fs = []) (i : ℕ) (hi : i < 7) :
    ((ranges.getD i (0, 0, "")).1 : ℚ) ≤ fs.getD i 0 ∧
      fs.getD i 0 ≤ ((ranges.getD i (0, 0, "")).2.1 : ℚ) := by
  have hb := pick_eq_nil_forall
    (fun (v : ℚ) (r : ℕ × ℕ × String) => v < (r.1 : ℚ) ∨ (r.2.1 : ℚ) < v)
    rangeMsg 0 (0, 0, "") fs ranges (by rw [ranges_length, h7])
    (by rw [← rangeErrorsWith_eq_pick]; exact h) i (by omega)
  exact ⟨le_of_not_lt fun hc => hb (Or.inl hc),
    le_of_not_lt fun hc => hb (Or.inr hc)⟩

/-! ## The two branches of `main` -/

lemma main_error (e : String) (pressed : Bool) (sub : Submission) :
    main (Except.error e) pressed sub = loadFailTrace e := rfl

lemma main_ok (m : Model) (pressed : Bool) (sub : Submission) :
    main (Except.ok m) pressed sub =
      Event.loadCall :: (if pressed then handle m sub else []) := rfl

/-- Only a submission whose seven fields are all numeric, with values that
produce no range error, makes the prediction call. -/
lemma predictCall_mem_handle {m : Model} {sub : Submission} {fs : List ℚ}
    (h : Event.predictCall fs ∈ handle m sub) :
    parsedNums sub = some fs ∧ range_errors fs = [] := by
  by_cases hj : RawInput.junk ∈ sub.rawList
  · rw [handle_of_junk m sub hj] at h
    simp at h
  · rw [handle_of_no_junk m sub hj] at h
    have hc : convert sub.rawList = .ok (sub.rawList.map rawToOpt) :=
      convert_of_no_junk _ hj
    set features := sub.rawList.map rawToOpt with hfdef
    by_cases hv : validate_inputs features = []
    · by_cases hr : range_errors features.reduceOption = []
      · have hp := parsedNums_of_valid hc hv
        cases hml : m features.reduceOption with
        | error e =>
          rw [afterParse_predict_err m sub features e hv hr hml] at h
          simp at h
          subst h
          exact ⟨hp.1, hr⟩
        | ok l =>
          by_cases hl : l = ""
          · subst hl
            rw [afterParse_predict_falsy m sub features hv hr hml] at h
            simp at h
            subst h
            exact ⟨hp.1, hr⟩
          · rw [afterParse_predict_ok m sub features l hv hr hml hl] at h
            simp at h
            subst h
            exact ⟨hp.1, hr⟩
      · rw [afterParse_of_range m sub features hv hr] at h
        simp at h
    · rw [afterParse_of_missing m sub features hv] at h
      simp at h

/-- `range_errors` accepts the spec's example vector. -/
lemma range_errors_fsValid : range_errors fsValid = [] := by
  norm_num [range_errors, rangeErrorsWith, ranges, fsValid]

lemma parsedNums_subValid : parsedNums subValid = some fsValid := rfl

/-! ## Claim theorems -/

/-- C1: a feature vector is passed to the inference call (`predict_crop`,
hence the `predictCall` event) only if all 7 fields are present and parse
to a number (`parsedNums sub = some fs`) and each value lies within its
named `[min, max]` range; no submission with a missing or out-of-range
field ever reaches `predict_crop`. -/
theorem predict_only_on_valid_vector (r : Except String Model)
    (pressed : Bool) (sub : Submission) (fs : List ℚ)
    (h : Event.predictCall fs ∈ main r pressed sub) :
    parsedNums sub = some fs ∧ range_errors fs = [] ∧
      ∀ i : Fin 7, ((ranges.getD i (0, 0, "")).1 : ℚ) ≤ fs.getD i 0 ∧
        fs.getD i 0 ≤ ((ranges.getD i (0, 0, "")).2.1 : ℚ) := by
  cases r with
  | error e =>
    rw [main_error] at h
    simp [loadFailTrace] at h
  | ok m =>
    rw [main_ok] at h
    rcases List.mem_cons.mp h with h0 | h0
    · exact absurd h0 (by simp)
    · cases pressed with
      | false => simp at h0
      | true =>
        rw [if_pos rfl] at h0
        obtain ⟨h1, h2⟩ := predictCall_mem_handle h0
        have h7 : fs.length = 7 := by
          have hmap := (parsedNums_some_iff sub fs).mp h1
          have hl := rawList_length sub
          rw [hmap, List.length_map] at hl
          exact hl
        exact ⟨h1, h2, fun i => range_errors_nil_bounds h7 h2 i.1 i.2⟩

/-- Witness for C1 at the spec's example vector: the prediction call is
made, and the theorem's conclusions hold there. -/
theorem predict_only_on_valid_vector_witness :
    (Event.predictCall fsValid ∈ main (Except.ok okModel) true subValid) ∧
      (parsedNums subValid = some fsValid ∧ range_errors fsValid = [] ∧
        ∀ i : Fin 7, ((ranges.getD i (0, 0, "")).1 : ℚ) ≤ fsValid.getD i 0 ∧
          fsValid.getD i 0 ≤ ((ranges.getD i (0, 0, "")).2.1 : ℚ)) := by
  have hmem : Event.predictCall fsValid ∈ main (Except.ok okModel) true subValid := by
    rw [main_ok, if_pos rfl]
    obtain ⟨he, hv, hro, h7⟩ := handle_of_nums okModel parsedNums_subValid
    rw [he, afterParse_predict_ok okModel subValid (fsValid.map some) "rice" hv
      (by rw [hro]; exact range_errors_fsValid) (by rw [hro]; rfl) (by simp), hro]
    simp
  exact ⟨hmem, predict_only_on_valid_vector (Except.ok okModel) true subValid
    fsValid hmem⟩

/-- C3: a failed model load yields one `loadCall`, the load failure is
reported in the trace before anything else and independently of the
submission (the resulting trace `loadFailTrace e` does not mention the
submission at all), and the prediction path is never reached.  In every
run, failed or not, the model is loaded exactly once. -/
theorem load_failure_blocks_prediction (r : Except String Model)
    (pressed : Bool) (sub : Submission) :
    (main r pressed sub).count Event.loadCall = 1 ∧
      ∀ e, r = Except.error e →
        main r pressed sub = loadFailTrace e ∧
          ∀ fs, Event.predictCall fs ∉ main r pressed sub := by
  constructor
  · cases r with
    | error e =>
      rw [main_error]
      have h2 : List.count Event.loadCall
          [Event.errorMsg ("Error loading model: " ++ e),
           Event.errorMsg failedLoadMsg] = 0 :=
        List.count_eq_zero.mpr (by simp)
      rw [show loadFailTrace e = [Event.loadCall] ++
        [Event.errorMsg ("Error loading model: " ++ e),
         Event.errorMsg failedLoadMsg] from rfl, List.count_append, h2]
      rfl
    | ok m =>
      rw [main_ok,
        show (Event.loadCall :: (if pressed then handle m sub else [])) =
          [Event.loadCall] ++ (if pressed then handle m sub else []) from rfl,
        List.count_append]
      have h2 : (if pressed then handle m sub else []).count Event.loadCall = 0 := by
        cases pressed with
        | false => rfl
        | true =>
          rw [if_pos rfl]
          exact List.count_eq_zero.mpr (loadCall_not_mem_handle m sub)
      rw [h2]
      rfl
  · intro e hre
    subst hre
    refine ⟨main_error e pressed sub, fun fs => ?_⟩
    rw [main_error]
    simp [loadFailTrace]

/-- Witness for C3 at a concrete failed load. -/
theorem load_failure_blocks_prediction_witness :
    (main (Except.error "boom") true subValid).count Event.loadCall = 1 ∧
      main (Except.error "boom") true subValid = loadFailTrace "boom" :=
  ⟨(load_failure_blocks_prediction (Except.error "boom") true subValid).1,
   ((load_failure_blocks_prediction (Except.error "boom") true subValid).2
      "boom" rfl).1⟩

/-- C4: a submission with a non-numeric field results in exactly the
single generic `valid numbers` error — the range check never runs and no
per-field message is emitted. -/
theorem junk_input_generic_error (m : Model) (sub : Submission)
    (h : RawInput.junk ∈ sub.rawList) :
    handle m sub = [Event.errorMsg validNumbersMsg] :=
  handle_of_junk m sub h

/-- Witness for C4. -/
theorem junk_input_generic_error_witness :
    handle okModel subJunkAndEmpty = [Event.errorMsg validNumbersMsg] :=
  junk_input_generic_error okModel subJunkAndEmpty
    (by simp [Submission.rawList, subJunkAndEmpty])

/-- C8: `predict_crop` returns the label exactly when the underlying
model call does not raise (`(m fs).toOption`), it surfaces a raise as an
inline error with no label, and a request makes at most one prediction
call (no retry). -/
theorem predict_crop_contract (m : Model) (fs : List ℚ) :
    (predict_crop m fs).2 = (m fs).toOption ∧
      (∀ l, m fs = Except.ok l →
        (predict_crop m fs).1 = [Event.predictCall fs]) ∧
      (∀ e, m fs = Except.error e →
        (predict_crop m fs).1 =
          [Event.predictCall fs,
           Event.errorMsg ("Error making prediction: " ++ e)]) ∧
      ∀ sub gs, (handle m sub).count (Event.predictCall gs) ≤ 1 := by
  refine ⟨?_, ?_, ?_, fun sub gs => count_predictCall_handle m sub gs⟩
  · cases hml : m fs <;> simp [predict_crop, hml, Except.toOption]
  · intro l hml
    simp [predict_crop, hml]
  · intro e hml
    simp [predict_crop, hml]

/-- Witness for C8 with one succeeding and one raising model. -/
theorem predict_crop_contract_witness :
    (predict_crop okModel fsValid).2 = (okModel fsValid).toOption ∧
      (predict_crop errModel fsValid).1 =
        [Event.predictCall fsValid,
         Event.errorMsg ("Error making prediction: " ++ "boom")] :=
  ⟨(predict_crop_contract okModel fsValid).1,
   (predict_crop_contract errModel fsValid).2.2.1 "boom" rfl⟩

/-- C10: non-numeric text in any field suppresses every per-field message
for the whole submission — the display holds no warning bullet at all
(in particular no `is required` bullet for other, empty fields), only the
generic error. -/
theorem junk_suppresses_field_messages (m : Model) (sub : Submission)
    (h : RawInput.junk ∈ sub.rawList) :
    displayedWarnings m sub = [] ∧
      handle m sub = [Event.errorMsg validNumbersMsg] := by
  have hh := handle_of_junk m sub h
  refine ⟨?_, hh⟩
  apply displayedWarnings_of_no_warning
  intro s hs
  rw [hh] at hs
  simp at hs

/-- Witness for C10: one junk field and one empty field. -/
theorem junk_suppresses_field_messages_witness :
    displayedWarnings okModel subJunkAndEmpty = [] ∧
      handle okModel subJunkAndEmpty = [Event.errorMsg validNumbersMsg] :=
  junk_suppresses_field_messages okModel subJunkAndEmpty
    (by simp [Submission.rawList, subJunkAndEmpty])

/-- C2 counterexample: with nitrogen missing and phosphorus out of range
(999 > 140), the display shows only `Nitrogen is required`; the claimed
`Phosphorus must be between 0 and 140` message for the other violated
field is absent, so the claim that both violations are reported is false. -/
theorem missing_field_suppresses_range_check :
    handle okModel subMissingAndRange =
      [Event.errorMsg fixMsg, Event.warningMsg "Nitrogen is required"] ∧
      Event.warningMsg "Phosphorus must be between 0 and 140" ∉
        handle okModel subMissingAndRange := by
  have h : handle okModel subMissingAndRange =
      [Event.errorMsg fixMsg, Event.warningMsg "Nitrogen is required"] := by
    norm_num [handle, convert, toFloatOpt, Submission.rawList,
      subMissingAndRange, afterParse, validate_inputs, validateWith,
      input_names, requiredMsg, Option.some_ne_none]
    simp
  refine ⟨h, ?_⟩
  rw [h]
  simp

/-- C2 as amended: validation returns either a valid feature vector
(which is passed on to inference) or a non-empty message list, but the
two phases never mix: when any field is missing the displayed messages
are exactly the `is required` messages (one per missing field, in field
order) and range checks are skipped entirely; only when no field is
missing are the messages exactly the out-of-range messages (one per
out-of-range field, in field order).  A submission with one missing field
and another out-of-range field therefore reports only the missing-field
violation. -/
theorem validation_messages_phased (m : Model) (sub : Submission)
    (features : List (Option ℚ))
    (hc : convert sub.rawList = Except.ok features) :
    (validate_inputs features ≠ [] →
      displayedWarnings m sub = validate_inputs features) ∧
      (validate_inputs features = [] →
        displayedWarnings m sub = range_errors features.reduceOption) ∧
      (validate_inputs features = [] →
        range_errors features.reduceOption = [] →
        parsedNums sub = some features.reduceOption ∧
          Event.predictCall features.reduceOption ∈ handle m sub) := by
  obtain ⟨hj, hf⟩ := convert_ok_inv hc
  have hh : handle m sub = afterParse m sub features := by
    rw [handle_of_no_junk m sub hj, ← hf]
  refine ⟨?_, ?_, ?_⟩
  · intro hv
    exact displayedWarnings_of_msgs m sub
      (by rw [hh, afterParse_of_missing m sub features hv])
  · intro hv
    by_cases hr : range_errors features.reduceOption = []
    · rw [hr]
      apply displayedWarnings_of_no_warning
      intro s hs
      rw [hh] at hs
      cases hml : m features.reduceOption with
      | error e =>
        rw [afterParse_predict_err m sub features e hv hr hml] at hs
        simp at hs
      | ok l =>
        by_cases hl : l = ""
        · subst hl
          rw [afterParse_predict_falsy m sub features hv hr hml] at hs
          simp at hs
        · rw [afterParse_predict_ok m sub features l hv hr hml hl] at hs
          simp at hs
    · exact displayedWarnings_of_msgs m sub
        (by rw [hh, afterParse_of_range m sub features hv hr])
  · intro hv hr
    refine ⟨(parsedNums_of_valid hc hv).1, ?_⟩
    rw [hh]
    cases hml : m features.reduceOption with
    | error e =>
      rw [afterParse_predict_err m sub features e hv hr hml]
      simp
    | ok l =>
      by_cases hl : l = ""
      · subst hl
        rw [afterParse_predict_falsy m sub features hv hr hml]
        simp
      · rw [afterParse_predict_ok m sub features l hv hr hml hl]
        simp

/-- Witness for the amended C2 at the counterexample submission. -/
theorem validation_messages_phased_witness :
    displayedWarnings okModel subMissingAndRange =
      validate_inputs [none, some 999, some 1, some 1, some 1, some 7, some 1] :=
  (validation_messages_phased okModel subMissingAndRange
    [none, some 999, some 1, some 1, some 1, some 7, some 1] rfl).1
    (by decide)

/-- C5: when all seven fields are present and numeric, the field `i`
produces its `must be between` message exactly once if its value is
strictly below its minimum or strictly above its maximum, and not at all
otherwise — in particular a value equal to the minimum or the maximum
produces no message. -/
theorem range_violation_single_message (m : Model) (sub : Submission)
    (fs : List ℚ) (i : Fin 7) (h : parsedNums sub = some fs) :
    (displayedWarnings m sub).count (rangeMsg (ranges.getD i (0, 0, ""))) =
      if fs.getD i 0 < ((ranges.getD i (0, 0, "")).1 : ℚ) ∨
          ((ranges.getD i (0, 0, "")).2.1 : ℚ) < fs.getD i 0
        then 1 else 0 := by
  obtain ⟨he, hv, hro, h7⟩ := handle_of_nums m h
  have hcount := count_range_errors fs i.1 (by rw [h7]; exact i.2) (le_of_eq h7)
  by_cases hr : range_errors fs = []
  · have hw : displayedWarnings m sub = [] := by
      apply displayedWarnings_of_no_warning
      intro s hs
      rw [he] at hs
      cases hml : m ((fs.map some).reduceOption) with
      | error e =>
        rw [afterParse_predict_err m sub _ e hv (by rw [hro]; exact hr) hml] at hs
        simp at hs
      | ok l =>
        by_cases hl : l = ""
        · subst hl
          rw [afterParse_predict_falsy m sub _ hv (by rw [hro]; exact hr) hml] at hs
          simp at hs
        · rw [afterParse_predict_ok m sub _ l hv (by rw [hro]; exact hr) hml hl] at hs
          simp at hs
    rw [hw, show ([] : List String) = range_errors fs from hr.symm]
    exact hcount
  · have hmsgs : handle m sub =
        Event.errorMsg fixMsg :: (range_errors fs).map Event.warningMsg := by
      rw [he, afterParse_of_range m sub (fs.map some) hv (by rw [hro]; exact hr), hro]
    rw [displayedWarnings_of_msgs m sub hmsgs]
    exact hcount

/-- Witness for C5: phosphorus = 999 is above its maximum 140 and yields
its message exactly once. -/
theorem range_violation_single_message_witness :
    (displayedWarnings okModel subRange).count
        (rangeMsg (ranges.getD 1 (0, 0, ""))) = 1 := by
  have h := range_violation_single_message okModel subRange fsRange
    ⟨1, by omega⟩ rfl
  rw [if_pos] at h
  · exact h
  · right
    norm_num [fsRange, ranges]

/-- C6: if field `i` of the seven is missing, the validator emits its
`is required` message exactly once; every emitted message is one of the
seven `is required` messages and no message is duplicated, so no other
message concerns that field. -/
theorem missing_field_single_message (os : List (Option ℚ)) (i : Fin 7)
    (h7 : os.length = 7) (hm : os.getD i (some 0) = none) :
    (validate_inputs os).count (requiredMsg (input_names.getD i "")) = 1 ∧
      validate_inputs os ⊆ input_names.map requiredMsg ∧
      (validate_inputs os).Nodup := by
  have hc := count_validate_inputs os i.1 (by rw [h7]; exact i.2) (le_of_eq h7)
  rw [if_pos hm] at hc
  refine ⟨hc, ?_, ?_⟩
  · rw [validate_inputs, validateWith_eq_pick]
    exact (pick_sublist _ _ _ _).subset
  · rw [validate_inputs, validateWith_eq_pick]
    exact (pick_sublist _ _ _ _).nodup required_nodup

/-- Witness for C6: phosphorus missing. -/
theorem missing_field_single_message_witness :
    (validate_inputs [some 1, none, some 1, some 1, some 1, some 7, some 1]).count
        (requiredMsg (input_names.getD 1 "")) = 1 ∧
      validate_inputs [some 1, none, some 1, some 1, some 1, some 7, some 1] ⊆
        input_names.map requiredMsg ∧
      (validate_inputs [some 1, none, some 1, some 1, some 1, some 7, some 1]).Nodup :=
  missing_field_single_message
    [some 1, none, some 1, some 1, some 1, some 7, some 1] ⟨1, by omega⟩ rfl rfl

/-- C7 counterexample: with a model whose prediction call succeeds with
the empty-string label, the prediction call is made and succeeds (no
error event), yet — because line 190 tests the label for truthiness —
nothing is rendered and the inputs are not echoed.  So "whenever the
prediction call succeeds, the predicted label is rendered" is false as
stated. -/
theorem empty_label_not_rendered :
    handle emptyLabelModel subValid = [Event.predictCall fsValid] ∧
      Event.successMsg "" ∉ handle emptyLabelModel subValid ∧
      Event.inputEcho subValid ∉ handle emptyLabelModel subValid := by
  have h : handle emptyLabelModel subValid = [Event.predictCall fsValid] := by
    obtain ⟨he, hv, hro, h7⟩ := handle_of_nums emptyLabelModel parsedNums_subValid
    rw [he, afterParse_predict_falsy emptyLabelModel subValid (fsValid.map some)
      hv (by rw [hro]; exact range_errors_fsValid) (by rw [hro]; rfl), hro]
  exact ⟨h, by rw [h]; simp, by rw [h]; simp⟩

/-- C7 as amended: a submission whose seven values are present and within
range reaches the inference adapter, and whenever the prediction call
succeeds with a non-empty (truthy) label, that label is rendered and the
seven input values are echoed back; a successful empty-string label is
treated as falsy and nothing is rendered. -/
theorem valid_vector_renders_label (m : Model) (sub : Submission)
    (fs : List ℚ) (l : String) (h1 : parsedNums sub = some fs)
    (h2 : range_errors fs = []) (h3 : m fs = Except.ok l) (h4 : l ≠ "") :
    handle m sub =
      [Event.predictCall fs, Event.successMsg l, Event.inputEcho sub] := by
  obtain ⟨he, hv, hro, h7⟩ := handle_of_nums m h1
  rw [he, afterParse_predict_ok m sub (fs.map some) l hv
    (by rw [hro]; exact h2) (by rw [hro]; exact h3) h4, hro]

/-- Witness for the amended C7 at the spec's example vector. -/
theorem valid_vector_renders_label_witness :
    handle okModel subValid =
      [Event.predictCall fsValid, Event.successMsg "rice",
       Event.inputEcho subValid] :=
  valid_vector_renders_label okModel subValid fsValid "rice"
    parsedNums_subValid range_errors_fsValid rfl (by simp)

/-- C9: an empty field is treated as missing, not as non-numeric text:
the whole display collapses to the generic `valid numbers` error exactly
when some field holds non-numeric text, so if no field does, a submission
whose field `i` is empty shows that field's `is required` bullet. -/
theorem empty_field_is_missing_not_junk (m : Model) (sub : Submission)
    (i : Fin 7) (h : sub.rawList.getD i RawInput.junk = RawInput.empty) :
    (handle m sub = [Event.errorMsg validNumbersMsg] ↔
      RawInput.junk ∈ sub.rawList) ∧
      (RawInput.junk ∉ sub.rawList →
        Event.warningMsg (requiredMsg (input_names.getD i "")) ∈
          handle m sub) := by
  refine ⟨handle_eq_generic_iff m sub, ?_⟩
  intro hj
  have hi7 : (i : ℕ) < sub.rawList.length := by
    rw [rawList_length]; exact i.2
  set os := sub.rawList.map rawToOpt with hos
  have hlen : os.length = 7 := by
    rw [hos, List.length_map, rawList_length]
  have hnone : os.getD i (some 0) = none := by
    rw [hos, List.getD_eq_getElem _ _ (by rw [List.length_map]; exact hi7),
      List.getElem_map]
    rw [List.getD_eq_getElem _ _ hi7] at h
    rw [h]
    rfl
  have hcount := count_validate_inputs os i.1 (by rw [hlen]; exact i.2)
    (le_of_eq hlen)
  rw [if_pos hnone] at hcount
  have hmem : requiredMsg (input_names.getD i "") ∈ validate_inputs os :=
    List.count_pos_iff.mp (by rw [hcount]; omega)
  have hvne : validate_inputs os ≠ [] := by
    intro hnil
    rw [hnil] at hmem
    simp at hmem
  rw [handle_of_no_junk m sub hj, afterParse_of_missing m sub os hvne]
  exact List.mem_cons_of_mem _ (List.mem_map_of_mem _ hmem)

/-- Witness for C9: phosphorus empty, no junk anywhere. -/
theorem empty_field_is_missing_not_junk_witness :
    (handle okModel subMissing = [Event.errorMsg validNumbersMsg] ↔
      RawInput.junk ∈ subMissing.rawList) ∧
      (RawInput.junk ∉ subMissing.rawList →
        Event.warningMsg (requiredMsg (input_names.getD 1 "")) ∈
          handle okModel subMissing) :=
  empty_field_is_missing_not_junk okModel subMissing ⟨1, by omega⟩ rfl

end CropApp
